import Mathlib

/-!
Shallow embedding of `src/profuse.ts` (the `CircuitBreaker` class) and proofs
about it.

Modelling conventions:
* JS numbers holding counts, timestamps and history entries become `Int`
  (timestamps from `Date.now()` are passed in explicitly as parameters).
* JS floating-point rates (`successRate`, `tripRate`) become `ℚ`; the exact
  rational value of `score / count` is used.
* The history array (oldest at index 0, newest at the end) becomes `List Int`
  with the head as the oldest element.
* The optional `logger` only emits diagnostics and never affects state; it is
  omitted.
* `do` is a reserved word in Lean, so the promise entry point is embedded as
  `doCall`; `doCallback` becomes `doCallbackCall`. An asynchronous call is
  split into its two synchronous state updates: `callStart` (admission, at time
  t0) and `callFinish` (outcome bookkeeping, at time t1); the wrapped
  operation's outcome is a `Bool` parameter (`true` = resolved, `false` =
  rejected).
-/

namespace Profuse

/-- `enum Mode { Normal, Tripped, Probation }`. -/
inductive Mode where
  | Normal
  | Tripped
  | Probation
deriving DecidableEq

/-- The mutable fields of `class CircuitBreaker`, plus its `name`. -/
structure Breaker where
  name : String
  mode : Mode
  checkInterval : Int
  lastCheck : Int
  concurrent : Int
  maxConcurrent : Int
  history : List Int
  window : Int
  tripRate : ℚ
deriving DecidableEq

/-- `interface CircuitBreakerOptions` (minus the logger). -/
structure CircuitBreakerOptions where
  maxConcurrent : Option Int := none
  tripRate : Option ℚ := none
  window : Option Int := none
  checkInterval : Option Int := none
deriving DecidableEq

/-- `clear()`: `history = [window]; mode = Normal`. -/
def clear (b : Breaker) : Breaker :=
  { b with history := [b.window], mode := Mode.Normal }

/-- The constructor: field initializers give the defaults
(`DEFAULT_CHECK_INTERVAL = 30000`, `DEFAULT_MAX_CONCURRENT_REQUESTS = 10^6`,
`DEFAULT_TRIP_RATE = 0.9`, `DEFAULT_WINDOW = 100`), each option overrides its
field when present, and finally `this.clear()` runs. -/
def construct (name : String) (options : CircuitBreakerOptions) : Breaker :=
  clear
    { name := name
      mode := Mode.Normal
      checkInterval := options.checkInterval.getD 30000
      lastCheck := 0
      concurrent := 0
      maxConcurrent := options.maxConcurrent.getD 1000000
      history := []
      window := options.window.getD 100
      tripRate := options.tripRate.getD (9 / 10) }

/-- The loop body of `get successRate()`: walk the history from oldest to
newest while `count <= window`, adding each magnitude to `count` and each
positive run to `score`.  Returns the final `(score, count)`. -/
def rateGo (w : Int) : List Int → Int → Int → Int × Int
  | [], score, count => (score, count)
  | x :: rest, score, count =>
      if count ≤ w then
        if x < 0 then rateGo w rest score (count - x)
        else rateGo w rest (score + x) (count + x)
      else (score, count)

/-- The `(score, count)` pair computed by `get successRate()`. -/
def rateParts (b : Breaker) : Int × Int :=
  rateGo b.window b.history 0 0

/-- `get successRate()`: `score / count` as an exact rational. -/
def successRate (b : Breaker) : ℚ :=
  ((rateParts b).1 : ℚ) / ((rateParts b).2 : ℚ)

/-- `trip()`: `mode = Tripped; lastCheck = Date.now()` (the logger call is
omitted). -/
def trip (b : Breaker) (now : Int) : Breaker :=
  { b with mode := Mode.Tripped, lastCheck := now }

/-- The first half of `addResult`: merge the signed unit `result` into the
newest (last) run when the signs agree, otherwise push it as a new run.  The
array code reads `history[history.length - 1]` and updates it in place; here
we recurse to the last element.  (An empty history never occurs: `clear()`
always installs `[window]`.) -/
def addNewest : List Int → Int → List Int
  | [], result => [result]
  | [last], result =>
      if (last > 0 ∧ result < 0) ∨ (last < 0 ∧ result > 0) then [last, result]
      else [last + result]
  | a :: b :: rest, result => a :: addNewest (b :: rest) result

/-- The second half of `addResult`: drop the oldest unit.  `history[0]` moves
one step toward zero and is removed when it reaches zero. -/
def evictOldest : List Int → List Int
  | [] => []
  | a :: rest =>
      let a2 := if a < 0 then a + 1 else a - 1
      if a2 = 0 then rest else a2 :: rest

/-- The full history mutation performed by one `addResult` call. -/
def histAdd (h : List Int) (result : Int) : List Int :=
  evictOldest (addNewest h result)

/-- `addResult(result)`: update the history, then the mode logic — a success
in Probation resets to Normal; a failure trips when in Probation or when the
(freshly updated) success rate has fallen below `tripRate`.  `now` is the
`Date.now()` a trip would record. -/
def addResult (b : Breaker) (result : Int) (now : Int) : Breaker :=
  let b1 := { b with history := histAdd b.history result }
  if result > 0 ∧ b1.mode = Mode.Probation then
    { b1 with mode := Mode.Normal }
  else if result < 0 then
    if b1.mode = Mode.Probation ∨ successRate b1 < b1.tripRate then trip b1 now
    else b1
  else b1

/-- `addConcurrent()`: increment `concurrent` and trip when it now exceeds
`maxConcurrent`. -/
def addConcurrent (b : Breaker) (now : Int) : Breaker :=
  let b1 := { b with concurrent := b.concurrent + 1 }
  if b1.concurrent > b1.maxConcurrent then trip b1 now else b1

/-- `finishedConcurrent()`: decrement `concurrent`. -/
def finishedConcurrent (b : Breaker) : Breaker :=
  { b with concurrent := b.concurrent - 1 }

/-- `check()`: in Tripped mode, move to Probation and admit once
`lastCheck + checkInterval <= Date.now()`, otherwise reject; any other mode
admits unchanged. -/
def check (b : Breaker) (now : Int) : Bool × Breaker :=
  match b.mode with
  | Mode.Tripped =>
      if b.lastCheck + b.checkInterval ≤ now then
        (true, { b with mode := Mode.Probation })
      else (false, b)
  | _ => (true, b)

/-- Outcome of one wrapped call, as seen by the caller. -/
inductive DoResult where
  | rejected (msg : String)
  | succeeded
  | failed
deriving DecidableEq

/-- The admission phase shared by `do` and `doCallback`: `addConcurrent()`,
then `check()`; on rejection also `finishedConcurrent()`. -/
def callStart (b : Breaker) (now : Int) : Bool × Breaker :=
  let b1 := addConcurrent b now
  match check b1 now with
  | (true, b2) => (true, b2)
  | (false, b2) => (false, finishedConcurrent b2)

/-- The completion phase shared by `do` and `doCallback`: `addResult(±1)` then
`finishedConcurrent()`. -/
def callFinish (b : Breaker) (opSucceeds : Bool) (now : Int) : Breaker :=
  finishedConcurrent (addResult b (if opSucceeds then 1 else -1) now)

/-- `async do(f)`: admission at time `t0`; if rejected, throw
`Circuit breaker tripped: <name>`; otherwise run `f`, whose outcome
(`opSucceeds`) is recorded at time `t1`. -/
def doCall (b : Breaker) (opSucceeds : Bool) (t0 t1 : Int) : DoResult × Breaker :=
  match callStart b t0 with
  | (false, b1) => (DoResult.rejected ("Circuit breaker tripped: " ++ b.name), b1)
  | (true, b1) =>
      if opSucceeds then (DoResult.succeeded, callFinish b1 true t1)
      else (DoResult.failed, callFinish b1 false t1)

/-- `doCallback(f, callback)`: same state updates as `do`, with the outcome
delivered through the continuation instead of a promise. -/
def doCallbackCall (b : Breaker) (opSucceeds : Bool) (t0 t1 : Int) :
    DoResult × Breaker :=
  let b1 := addConcurrent b t0
  match check b1 t0 with
  | (false, b2) =>
      (DoResult.rejected ("Circuit breaker tripped: " ++ b.name),
        finishedConcurrent b2)
  | (true, b2) =>
      if opSucceeds then
        (DoResult.succeeded, finishedConcurrent (addResult b2 1 t1))
      else (DoResult.failed, finishedConcurrent (addResult b2 (-1) t1))

/-! ## The history invariant -/

/-- Total absolute magnitude of the history (absolute value written via
`Int.natAbs`). -/
def absSum (h : List Int) : Int := (h.map (fun x => (x.natAbs : Int))).sum

/-- Sum of the non-negative runs of the history — exactly what the
`successRate` loop accumulates into `score`. -/
def posSum (h : List Int) : Int := (h.map (fun x => if x < 0 then 0 else x)).sum

/-- Adjacent runs always carry opposite signs. -/
def AltSigns : List Int → Prop
  | [] => True
  | [_] => True
  | a :: b :: rest => ((0 < a ∧ b < 0) ∨ (a < 0 ∧ 0 < b)) ∧ AltSigns (b :: rest)

instance altSignsDec : (h : List Int) → Decidable (AltSigns h)
  | [] => Decidable.isTrue trivial
  | [_] => Decidable.isTrue trivial
  | _ :: b :: rest =>
      @instDecidableAnd _ _ inferInstance (altSignsDec (b :: rest))

/-- The history invariant for window `w`: total magnitude exactly `w`, no
zero run, and alternating signs. -/
def HistInv (w : Int) (h : List Int) : Prop :=
  absSum h = w ∧ (∀ x ∈ h, x ≠ 0) ∧ AltSigns h

instance (w : Int) (h : List Int) : Decidable (HistInv w h) :=
  inferInstanceAs (Decidable (_ ∧ _ ∧ _))

/-- The history reached from a fresh `clear()` by a sequence of recorded
outcomes (each `+1` or `-1`), oldest outcome first. -/
def runOutcomes (w : Int) (outs : List Int) : List Int :=
  outs.foldl histAdd [w]

/-! ## Concrete scenario states -/

/-- The breaker of the `trips after 50% failures` test:
`new CircuitBreaker("test", { tripRate: 0.5, window: 5 })`. -/
def scenB0 : Breaker := construct "test" { tripRate := some (1 / 2), window := some 5 }

/-- Scenario state after outcome 1 (a failure). -/
def scen1 : Breaker := (doCall scenB0 false 0 0).2

/-- Scenario state after outcome 2 (a success). -/
def scen2 : Breaker := (doCall scen1 true 0 0).2

/-- Scenario state after outcome 3 (a failure). -/
def scen3 : Breaker := (doCall scen2 false 0 0).2

/-- Scenario state after outcome 4 (a success). -/
def scen4 : Breaker := (doCall scen3 true 0 0).2

/-- Scenario state after outcome 5 (a failure). -/
def scen5 : Breaker := (doCall scen4 false 0 0).2

/-- A breaker of the probation test (`{ checkInterval: 50 }`), force-tripped
at time 0. -/
def tripped50 : Breaker := trip (construct "test" { checkInterval := some 50 }) 0

/-- `tripped50` after a call was admitted at time 50 (the admission flipped the
mode to Probation) and is still outstanding. -/
def probeOut : Breaker := (callStart tripped50 50).2

/-- A breaker constructed with the misconfiguration `window: 0`; the
constructor accepts it unchanged. -/
def badWindow : Breaker := construct "x" { window := some 0 }

/-! ## Helper lemmas: the history algebra -/

theorem absSum_nil : absSum [] = 0 := rfl

theorem absSum_cons (a : Int) (t : List Int) :
    absSum (a :: t) = (a.natAbs : Int) + absSum t := by
  simp [absSum]

theorem absSum_nonneg : ∀ h : List Int, 0 ≤ absSum h
  | [] => le_refl 0
  | a :: t => by
      have ih := absSum_nonneg t
      rw [absSum_cons]
      omega

theorem posSum_nil : posSum [] = 0 := rfl

theorem posSum_cons (a : Int) (t : List Int) :
    posSum (a :: t) = (if a < 0 then 0 else a) + posSum t := by
  simp [posSum]

theorem posSum_nonneg : ∀ h : List Int, 0 ≤ posSum h
  | [] => le_refl 0
  | a :: t => by
      have ih := posSum_nonneg t
      rw [posSum_cons]
      split <;> omega

theorem posSum_le_absSum : ∀ h : List Int, posSum h ≤ absSum h
  | [] => le_refl 0
  | a :: t => by
      have ih := posSum_le_absSum t
      rw [posSum_cons, absSum_cons]
      split <;> omega

theorem addNewest_ne_nil : ∀ (h : List Int) (r : Int), addNewest h r ≠ []
  | [], _ => by simp [addNewest]
  | [a], r => by unfold addNewest; split <;> simp
  | _ :: _ :: _, _ => by simp [addNewest]

theorem absSum_addNewest : ∀ (h : List Int) (r : Int), (∀ x ∈ h, x ≠ 0) →
    (r = 1 ∨ r = -1) → absSum (addNewest h r) = absSum h + 1
  | [], r, _, hr => by
      rcases hr with rfl | rfl <;> simp [addNewest, absSum]
  | [a], r, hnz, hr => by
      have ha : a ≠ 0 := hnz a (by simp)
      unfold addNewest
      split
      · rcases hr with rfl | rfl <;>
          simp only [absSum_cons, absSum_nil] <;> omega
      · rename_i hc
        push_neg at hc
        rcases hr with rfl | rfl <;>
          simp only [absSum_cons, absSum_nil] <;> omega
  | a :: b :: t, r, hnz, hr => by
      have ih := absSum_addNewest (b :: t) r
        (fun x hx => hnz x (List.mem_cons_of_mem a hx)) hr
      simp only [addNewest, absSum_cons] at ih ⊢
      omega

theorem addNewest_cons : ∀ (a : Int) (t : List Int) (r : Int), a ≠ 0 →
    (r = 1 ∨ r = -1) →
    ∃ a2 t2, addNewest (a :: t) r = a2 :: t2 ∧ (0 < a → 0 < a2) ∧ (a < 0 → a2 < 0)
  | a, [], r, ha, hr => by
      unfold addNewest
      split
      · exact ⟨a, [r], rfl, fun h => h, fun h => h⟩
      · rename_i hc
        push_neg at hc
        refine ⟨a + r, [], rfl, ?_, ?_⟩ <;> rcases hr with rfl | rfl <;> omega
  | a, b :: t, r, _, _ =>
      ⟨a, addNewest (b :: t) r, rfl, fun h => h, fun h => h⟩

theorem addNewest_nonzero : ∀ (h : List Int) (r : Int), (∀ x ∈ h, x ≠ 0) →
    (r = 1 ∨ r = -1) → ∀ x ∈ addNewest h r, x ≠ 0
  | [], r, _, hr => by
      rcases hr with rfl | rfl <;> simp [addNewest]
  | [a], r, hnz, hr => by
      have ha : a ≠ 0 := hnz a (by simp)
      unfold addNewest
      split
      · rcases hr with rfl | rfl <;> simp <;> omega
      · rename_i hc
        push_neg at hc
        rcases hr with rfl | rfl <;> simp <;> omega
  | a :: b :: t, r, hnz, hr => by
      have ih := addNewest_nonzero (b :: t) r
        (fun x hx => hnz x (List.mem_cons_of_mem a hx)) hr
      have ha : a ≠ 0 := hnz a (by simp)
      simp only [addNewest]
      intro x hx
      rcases List.mem_cons.1 hx with rfl | hx2
      · exact ha
      · exact ih x hx2

theorem altSigns_tail : ∀ (a : Int) (t : List Int), AltSigns (a :: t) → AltSigns t
  | _, [], _ => trivial
  | _, _ :: _, h => h.2

theorem addNewest_alt : ∀ (h : List Int) (r : Int), (∀ x ∈ h, x ≠ 0) →
    AltSigns h → (r = 1 ∨ r = -1) → AltSigns (addNewest h r)
  | [], r, _, _, _ => by simp [addNewest, AltSigns]
  | [a], r, hnz, _, hr => by
      unfold addNewest
      split
      · rename_i hc
        exact ⟨hc, trivial⟩
      · exact trivial
  | a :: b :: t, r, hnz, halt, hr => by
      have hb : b ≠ 0 := hnz b (by simp)
      obtain ⟨b2, t2, heq, hpos, hneg⟩ := addNewest_cons b t r hb hr
      have ih := addNewest_alt (b :: t) r
        (fun x hx => hnz x (List.mem_cons_of_mem a hx)) (altSigns_tail a _ halt) hr
      have hab : (0 < a ∧ b < 0) ∨ (a < 0 ∧ 0 < b) := halt.1
      show AltSigns (a :: addNewest (b :: t) r)
      rw [heq] at ih ⊢
      refine ⟨?_, ih⟩
      rcases hab with ⟨h1, h2⟩ | ⟨h1, h2⟩
      · exact Or.inl ⟨h1, hneg h2⟩
      · exact Or.inr ⟨h1, hpos h2⟩

theorem evictOldest_cons (a : Int) (t : List Int) :
    evictOldest (a :: t) =
      if (if a < 0 then a + 1 else a - 1) = 0 then t
      else (if a < 0 then a + 1 else a - 1) :: t := rfl

theorem evictOldest_inv : ∀ h : List Int, h ≠ [] → (∀ x ∈ h, x ≠ 0) →
    AltSigns h →
    absSum (evictOldest h) = absSum h - 1 ∧
      (∀ x ∈ evictOldest h, x ≠ 0) ∧ AltSigns (evictOldest h)
  | [], hne, _, _ => absurd rfl hne
  | a :: t, _, hnz, halt => by
      have ha : a ≠ 0 := hnz a (by simp)
      have htail : ∀ x ∈ t, x ≠ 0 := fun x hx => hnz x (List.mem_cons_of_mem a hx)
      rw [evictOldest_cons]
      set a2 := if a < 0 then a + 1 else a - 1 with ha2
      have ha2abs : (a2.natAbs : Int) = (a.natAbs : Int) - 1 := by
        rw [ha2]; split <;> omega
      split_ifs with hz
      · refine ⟨?_, htail, altSigns_tail a t halt⟩
        rw [absSum_cons]
        omega
      · refine ⟨?_, ?_, ?_⟩
        · rw [absSum_cons, absSum_cons]
          omega
        · intro x hx
          rcases List.mem_cons.1 hx with rfl | hx2
          · exact hz
          · exact htail x hx2
        · rcases t with _ | ⟨b, t'⟩
          · trivial
          · have hsame : (0 < a → 0 < a2) ∧ (a < 0 → a2 < 0) := by
              constructor <;> intro hs <;> rw [ha2] <;> split <;> omega
            refine ⟨?_, halt.2⟩
            rcases halt.1 with ⟨h1, h2⟩ | ⟨h1, h2⟩
            · exact Or.inl ⟨hsame.1 h1, h2⟩
            · exact Or.inr ⟨hsame.2 h1, h2⟩

theorem histAdd_inv (w : Int) (h : List Int) (r : Int) (hinv : HistInv w h)
    (hr : r = 1 ∨ r = -1) : HistInv w (histAdd h r) := by
  obtain ⟨hsum, hnz, halt⟩ := hinv
  have h1 := absSum_addNewest h r hnz hr
  have h2 := addNewest_nonzero h r hnz hr
  have h3 := addNewest_alt h r hnz halt hr
  obtain ⟨e1, e2, e3⟩ := evictOldest_inv (addNewest h r) (addNewest_ne_nil h r) h2 h3
  refine ⟨?_, e2, e3⟩
  rw [histAdd] at *
  omega

theorem histInv_init (w : Int) (hw : 0 < w) : HistInv w [w] := by
  refine ⟨?_, ?_, trivial⟩
  · rw [absSum_cons, absSum_nil]
    omega
  · intro x hx
    rcases List.mem_singleton.1 hx with rfl
    omega

theorem foldl_histAdd_inv (w : Int) : ∀ (outs : List Int) (h : List Int),
    HistInv w h → (∀ r ∈ outs, r = 1 ∨ r = -1) →
    HistInv w (outs.foldl histAdd h)
  | [], h, hh, _ => hh
  | r :: rest, h, hh, hro => by
      have hr := hro r (by simp)
      have ih := foldl_histAdd_inv w rest (histAdd h r)
        (histAdd_inv w h r hh hr) (fun x hx => hro x (List.mem_cons_of_mem r hx))
      simpa [List.foldl] using ih

theorem runOutcomes_inv (w : Int) (hw : 0 < w) (outs : List Int)
    (houts : ∀ r ∈ outs, r = 1 ∨ r = -1) : HistInv w (runOutcomes w outs) :=
  foldl_histAdd_inv w outs [w] (histInv_init w hw) houts

/-! ## Helper lemmas: the success rate -/

theorem rateGo_spec (w : Int) : ∀ (h : List Int) (s c : Int),
    c + absSum h ≤ w → rateGo w h s c = (s + posSum h, c + absSum h)
  | [], s, c, _ => by simp [rateGo, posSum_nil, absSum_nil]
  | x :: t, s, c, hle => by
      have hns : 0 ≤ absSum t := absSum_nonneg t
      rw [absSum_cons] at hle
      have hcw : c ≤ w := by omega
      unfold rateGo
      rw [if_pos hcw]
      split
      · rename_i hx
        have ih := rateGo_spec w t s (c - x) (by omega)
        rw [ih, posSum_cons, absSum_cons, if_pos hx]
        simp only [Prod.mk.injEq]
        constructor <;> omega
      · rename_i hx
        have ih := rateGo_spec w t (s + x) (c + x) (by omega)
        rw [ih, posSum_cons, absSum_cons, if_neg hx]
        simp only [Prod.mk.injEq]
        constructor <;> omega

theorem rateParts_of_inv (b : Breaker) (hinv : HistInv b.window b.history) :
    rateParts b = (posSum b.history, b.window) := by
  have hs := rateGo_spec b.window b.history 0 0 (by rw [hinv.1]; omega)
  rw [rateParts, hs, hinv.1]
  simp

theorem successRate_of_inv (b : Breaker) (hw : 0 < b.window)
    (hinv : HistInv b.window b.history) :
    successRate b = (posSum b.history : ℚ) / (b.window : ℚ) ∧
      0 ≤ successRate b ∧ successRate b ≤ 1 := by
  have hp := rateParts_of_inv b hinv
  have h0 : 0 ≤ posSum b.history := posSum_nonneg b.history
  have h1 : posSum b.history ≤ b.window := by
    have h2 := posSum_le_absSum b.history
    have h3 := hinv.1
    omega
  have heq : successRate b = (posSum b.history : ℚ) / (b.window : ℚ) := by
    rw [successRate, hp]
  refine ⟨heq, ?_, ?_⟩
  · rw [heq]
    apply div_nonneg
    · exact_mod_cast h0
    · exact_mod_cast le_of_lt hw
  · rw [heq]
    rw [div_le_one (by exact_mod_cast hw)]
    exact_mod_cast h1

/-! ## Helper lemmas: unfolding the call machinery -/

theorem check_eq_of_tripped (b : Breaker) (now : Int) (h : b.mode = Mode.Tripped) :
    check b now =
      if b.lastCheck + b.checkInterval ≤ now
      then (true, { b with mode := Mode.Probation })
      else (false, b) := by
  unfold check
  rw [h]

theorem check_eq_of_normal (b : Breaker) (now : Int) (h : b.mode = Mode.Normal) :
    check b now = (true, b) := by
  unfold check
  rw [h]

theorem check_eq_of_probation (b : Breaker) (now : Int)
    (h : b.mode = Mode.Probation) : check b now = (true, b) := by
  unfold check
  rw [h]

theorem addConcurrent_eq (b : Breaker) (now : Int) :
    addConcurrent b now =
      if b.concurrent + 1 > b.maxConcurrent
      then trip { b with concurrent := b.concurrent + 1 } now
      else { b with concurrent := b.concurrent + 1 } := rfl

theorem callStart_reject (b : Breaker) (now : Int) (b2 : Breaker)
    (h : check (addConcurrent b now) now = (false, b2)) :
    callStart b now = (false, finishedConcurrent b2) := by
  have he : callStart b now =
      match check (addConcurrent b now) now with
      | (true, b3) => (true, b3)
      | (false, b3) => (false, finishedConcurrent b3) := rfl
  rw [he, h]

theorem callStart_admitted (b : Breaker) (now : Int) (b2 : Breaker)
    (h : check (addConcurrent b now) now = (true, b2)) :
    callStart b now = (true, b2) := by
  have he : callStart b now =
      match check (addConcurrent b now) now with
      | (true, b3) => (true, b3)
      | (false, b3) => (false, finishedConcurrent b3) := rfl
  rw [he, h]

theorem doCall_of_reject (b : Breaker) (op : Bool) (t0 t1 : Int) (b1 : Breaker)
    (h : callStart b t0 = (false, b1)) :
    doCall b op t0 t1 =
      (DoResult.rejected ("Circuit breaker tripped: " ++ b.name), b1) := by
  unfold doCall
  rw [h]

theorem doCall_of_admitted (b : Breaker) (op : Bool) (t0 t1 : Int) (b1 : Breaker)
    (h : callStart b t0 = (true, b1)) :
    doCall b op t0 t1 =
      (if op then (DoResult.succeeded, callFinish b1 true t1)
       else (DoResult.failed, callFinish b1 false t1)) := by
  unfold doCall
  rw [h]

theorem addResult_eq (b : Breaker) (r now : Int) :
    addResult b r now =
      (if r > 0 ∧ b.mode = Mode.Probation then
        { b with history := histAdd b.history r, mode := Mode.Normal }
      else if r < 0 then
        (if b.mode = Mode.Probation ∨
            successRate { b with history := histAdd b.history r } < b.tripRate
         then trip { b with history := histAdd b.history r } now
         else { b with history := histAdd b.history r })
      else { b with history := histAdd b.history r }) := rfl

theorem addConcurrent_concurrent (b : Breaker) (now : Int) :
    (addConcurrent b now).concurrent = b.concurrent + 1 := by
  rw [addConcurrent_eq]
  split_ifs <;> rfl

theorem check_snd_concurrent (b : Breaker) (now : Int) :
    ((check b now).2).concurrent = b.concurrent := by
  cases hm : b.mode
  · rw [check_eq_of_normal b now hm]
  · rw [check_eq_of_tripped b now hm]
    split_ifs <;> rfl
  · rw [check_eq_of_probation b now hm]

theorem addResult_concurrent (b : Breaker) (r now : Int) :
    (addResult b r now).concurrent = b.concurrent := by
  rw [addResult_eq]
  split_ifs <;> rfl

/-! ## The claims -/

/-- C1: for every positive window and every sequence of recorded outcomes
starting from the `clear()` state, the history satisfies the invariant (total
magnitude = window, no zero run, alternating signs), and the next outcome of
either kind adds exactly one unit at the newest end (`addNewest` raises the
magnitude by one) and removes one at the oldest end (the full `histAdd` lands
back on `window`). -/
theorem claim_C1_history_invariant (w : Int) (outs : List Int) (hw : 0 < w)
    (houts : ∀ r ∈ outs, r = 1 ∨ r = -1) :
    HistInv w (runOutcomes w outs) ∧
      absSum (addNewest (runOutcomes w outs) 1) = w + 1 ∧
      absSum (histAdd (runOutcomes w outs) 1) = w ∧
      absSum (addNewest (runOutcomes w outs) (-1)) = w + 1 ∧
      absSum (histAdd (runOutcomes w outs) (-1)) = w := by
  have hinv := runOutcomes_inv w hw outs houts
  obtain ⟨hsum, hnz, halt⟩ := hinv
  have hs1 := absSum_addNewest (runOutcomes w outs) 1 hnz (Or.inl rfl)
  have hs2 := absSum_addNewest (runOutcomes w outs) (-1) hnz (Or.inr rfl)
  have hh1 := histAdd_inv w (runOutcomes w outs) 1 ⟨hsum, hnz, halt⟩ (Or.inl rfl)
  have hh2 := histAdd_inv w (runOutcomes w outs) (-1) ⟨hsum, hnz, halt⟩ (Or.inr rfl)
  exact ⟨⟨hsum, hnz, halt⟩, by omega, hh1.1, by omega, hh2.1⟩

theorem claim_C1_witness :
    0 < (3 : Int) ∧ HistInv 3 (runOutcomes 3 [1, -1, -1]) :=
  ⟨by decide, (claim_C1_history_invariant 3 [1, -1, -1] (by decide) (by decide)).1⟩

/-- C2: while the mode is Tripped, a call at a time `t0` before
`lastCheck + checkInterval` is rejected with the named breaker-tripped error,
the state change is independent of the operation (it is never invoked), and
the mode stays Tripped; a call at or after that instant (with the concurrency
ceiling not exceeded) flips the mode to Probation inside the admission check
and is admitted, the operation's outcome deciding the result. -/
theorem claim_C2_tripped_gate (b : Breaker) (op : Bool) (t0 t1 : Int)
    (hmode : b.mode = Mode.Tripped) (hlc : b.lastCheck ≤ t0) :
    (t0 < b.lastCheck + b.checkInterval →
      (doCall b op t0 t1).1 =
          DoResult.rejected ("Circuit breaker tripped: " ++ b.name) ∧
        ((doCall b op t0 t1).2).mode = Mode.Tripped ∧
        doCall b true t0 t1 = doCall b false t0 t1) ∧
    (b.lastCheck + b.checkInterval ≤ t0 → b.concurrent + 1 ≤ b.maxConcurrent →
      check (addConcurrent b t0) t0 =
          (true, { addConcurrent b t0 with mode := Mode.Probation }) ∧
        (doCall b op t0 t1).1 =
          (if op then DoResult.succeeded else DoResult.failed)) := by
  constructor
  · intro hlt
    have hint : 0 < b.checkInterval := by omega
    by_cases hcc : b.concurrent + 1 > b.maxConcurrent
    · have hb1 : addConcurrent b t0 = trip { b with concurrent := b.concurrent + 1 } t0 := by
        rw [addConcurrent_eq, if_pos hcc]
      have hm1 : (addConcurrent b t0).mode = Mode.Tripped := by rw [hb1]; rfl
      have hchk : check (addConcurrent b t0) t0 = (false, addConcurrent b t0) := by
        rw [check_eq_of_tripped _ _ hm1, if_neg ?hcnd]
        case hcnd =>
          rw [hb1]
          show ¬(t0 + b.checkInterval ≤ t0)
          omega
      have hcs := callStart_reject b t0 _ hchk
      rw [doCall_of_reject b op t0 t1 _ hcs, doCall_of_reject b true t0 t1 _ hcs,
        doCall_of_reject b false t0 t1 _ hcs]
      exact ⟨rfl, hm1, rfl⟩
    · have hb1 : addConcurrent b t0 = { b with concurrent := b.concurrent + 1 } := by
        rw [addConcurrent_eq, if_neg hcc]
      have hm1 : (addConcurrent b t0).mode = Mode.Tripped := by rw [hb1]; exact hmode
      have hchk : check (addConcurrent b t0) t0 = (false, addConcurrent b t0) := by
        rw [check_eq_of_tripped _ _ hm1, if_neg ?hcnd2]
        case hcnd2 =>
          rw [hb1]
          show ¬(b.lastCheck + b.checkInterval ≤ t0)
          omega
      have hcs := callStart_reject b t0 _ hchk
      rw [doCall_of_reject b op t0 t1 _ hcs, doCall_of_reject b true t0 t1 _ hcs,
        doCall_of_reject b false t0 t1 _ hcs]
      exact ⟨rfl, hm1, rfl⟩
  · intro hel hcc
    have hb1 : addConcurrent b t0 = { b with concurrent := b.concurrent + 1 } := by
      rw [addConcurrent_eq, if_neg (by omega)]
    have hm1 : (addConcurrent b t0).mode = Mode.Tripped := by rw [hb1]; exact hmode
    have hchk : check (addConcurrent b t0) t0 =
        (true, { addConcurrent b t0 with mode := Mode.Probation }) := by
      rw [check_eq_of_tripped _ _ hm1, if_pos ?hcnd3]
      case hcnd3 =>
        rw [hb1]
        show b.lastCheck + b.checkInterval ≤ t0
        omega
    refine ⟨hchk, ?_⟩
    have hcs := callStart_admitted b t0 _ hchk
    rw [doCall_of_admitted b op t0 t1 _ hcs]
    cases op <;> rfl

theorem claim_C2_witness :
    (doCall
        { name := "db", mode := Mode.Tripped, checkInterval := 100, lastCheck := 0,
          concurrent := 0, maxConcurrent := 4, history := [-3], window := 3,
          tripRate := 1 / 2 } true 40 40).1 =
      DoResult.rejected "Circuit breaker tripped: db" :=
  ((claim_C2_tripped_gate
      { name := "db", mode := Mode.Tripped, checkInterval := 100, lastCheck := 0,
        concurrent := 0, maxConcurrent := 4, history := [-3], window := 3,
        tripRate := 1 / 2 } true 40 40 rfl (by decide)).1 (by decide)).1

/-- C3: when the mode is Probation, a recorded success sets the mode to
Normal, and a recorded failure sets the mode to Tripped and records the
current time as the trip time — with no hypothesis on the success rate, i.e.
the `tripRate` threshold is bypassed. -/
theorem claim_C3_probation_outcomes (b : Breaker) (t : Int)
    (hmode : b.mode = Mode.Probation) :
    (addResult b 1 t).mode = Mode.Normal ∧
      (addResult b (-1) t).mode = Mode.Tripped ∧
      (addResult b (-1) t).lastCheck = t := by
  refine ⟨?_, ?_, ?_⟩
  · rw [addResult_eq, if_pos ⟨by decide, hmode⟩]
  · rw [addResult_eq, if_neg (fun hand => by exact absurd hand.1 (by decide)),
      if_pos (by decide : (-1 : Int) < 0), if_pos (Or.inl hmode)]
    rfl
  · rw [addResult_eq, if_neg (fun hand => by exact absurd hand.1 (by decide)),
      if_pos (by decide : (-1 : Int) < 0), if_pos (Or.inl hmode)]
    rfl

theorem claim_C3_witness :
    (addResult
        { name := "p", mode := Mode.Probation, checkInterval := 100, lastCheck := 7,
          concurrent := 1, maxConcurrent := 4, history := [2], window := 2,
          tripRate := 9 / 10 } 1 33).mode = Mode.Normal :=
  (claim_C3_probation_outcomes
      { name := "p", mode := Mode.Probation, checkInterval := 100, lastCheck := 7,
        concurrent := 1, maxConcurrent := 4, history := [2], window := 2,
        tripRate := 9 / 10 } 33 rfl).1

/-- C4: the in-flight counter is incremented before admission is checked, and
whenever the incremented counter exceeds `maxConcurrent` the breaker trips
immediately (mode Tripped, trip time = now), whatever the mode and history;
with a positive `checkInterval` the exceeding call is itself rejected. -/
theorem claim_C4_concurrency_trip (b : Breaker) (t t1 : Int) (op : Bool)
    (hover : b.maxConcurrent < b.concurrent + 1) :
    (addConcurrent b t).mode = Mode.Tripped ∧
      (addConcurrent b t).lastCheck = t ∧
      (addConcurrent b t).concurrent = b.concurrent + 1 ∧
      (0 < b.checkInterval →
        (doCall b op t t1).1 =
          DoResult.rejected ("Circuit breaker tripped: " ++ b.name)) := by
  have hb1 : addConcurrent b t = trip { b with concurrent := b.concurrent + 1 } t := by
    rw [addConcurrent_eq, if_pos (by omega)]
  refine ⟨by rw [hb1]; rfl, by rw [hb1]; rfl, by rw [hb1]; rfl, ?_⟩
  intro hint
  have hm1 : (addConcurrent b t).mode = Mode.Tripped := by rw [hb1]; rfl
  have hchk : check (addConcurrent b t) t = (false, addConcurrent b t) := by
    rw [check_eq_of_tripped _ _ hm1, if_neg ?hcnd4]
    case hcnd4 =>
      rw [hb1]
      show ¬(t + b.checkInterval ≤ t)
      omega
  rw [doCall_of_reject b op t t1 _ (callStart_reject b t _ hchk)]

theorem claim_C4_witness :
    (addConcurrent
        { name := "c", mode := Mode.Probation, checkInterval := 60, lastCheck := 2,
          concurrent := 3, maxConcurrent := 3, history := [5], window := 5,
          tripRate := 9 / 10 } 44).mode = Mode.Tripped :=
  (claim_C4_concurrency_trip
      { name := "c", mode := Mode.Probation, checkInterval := 60, lastCheck := 2,
        concurrent := 3, maxConcurrent := 3, history := [5], window := 5,
        tripRate := 9 / 10 } 44 44 false (by decide)).1

/-- C5: with `window = 5` and `tripRate = 0.5`, starting fresh, the outcome
sequence failure, success, failure, success, failure yields success rates
0.8, 0.8, 0.6, 0.6, 0.4; after the fifth outcome the mode is Tripped and the
next call is rejected with the breaker-tripped error. -/
theorem claim_C5_scenario :
    successRate scen1 = 0.8 ∧ successRate scen2 = 0.8 ∧
      successRate scen3 = 0.6 ∧ successRate scen4 = 0.6 ∧
      successRate scen5 = 0.4 ∧ scen5.mode = Mode.Tripped ∧
      (doCall scen5 true 0 0).1 =
        DoResult.rejected "Circuit breaker tripped: test" := by
  have h1 : scen1 =
      { name := "test", mode := Mode.Normal, checkInterval := 30000, lastCheck := 0,
        concurrent := 0, maxConcurrent := 1000000, history := [4, -1], window := 5,
        tripRate := 1 / 2 } := by
    norm_num +decide [scen1, scenB0, construct, clear, doCall, callStart,
      addConcurrent, check, trip, addResult, histAdd, addNewest, evictOldest,
      successRate, rateParts, rateGo, finishedConcurrent, callFinish]
  have h2 : scen2 =
      { name := "test", mode := Mode.Normal, checkInterval := 30000, lastCheck := 0,
        concurrent := 0, maxConcurrent := 1000000, history := [3, -1, 1], window := 5,
        tripRate := 1 / 2 } := by
    rw [scen2, h1]
    norm_num +decide [doCall, callStart, addConcurrent, check, trip, addResult,
      histAdd, addNewest, evictOldest, successRate, rateParts, rateGo,
      finishedConcurrent, callFinish]
  have h3 : scen3 =
      { name := "test", mode := Mode.Normal, checkInterval := 30000, lastCheck := 0,
        concurrent := 0, maxConcurrent := 1000000, history := [2, -1, 1, -1],
        window := 5, tripRate := 1 / 2 } := by
    rw [scen3, h2]
    norm_num +decide [doCall, callStart, addConcurrent, check, trip, addResult,
      histAdd, addNewest, evictOldest, successRate, rateParts, rateGo,
      finishedConcurrent, callFinish]
  have h4 : scen4 =
      { name := "test", mode := Mode.Normal, checkInterval := 30000, lastCheck := 0,
        concurrent := 0, maxConcurrent := 1000000, history := [1, -1, 1, -1, 1],
        window := 5, tripRate := 1 / 2 } := by
    rw [scen4, h3]
    norm_num +decide [doCall, callStart, addConcurrent, check, trip, addResult,
      histAdd, addNewest, evictOldest, successRate, rateParts, rateGo,
      finishedConcurrent, callFinish]
  have h5 : scen5 =
      { name := "test", mode := Mode.Tripped, checkInterval := 30000, lastCheck := 0,
        concurrent := 0, maxConcurrent := 1000000, history := [-1, 1, -1, 1, -1],
        window := 5, tripRate := 1 / 2 } := by
    rw [scen5, h4]
    norm_num +decide [doCall, callStart, addConcurrent, check, trip, addResult,
      histAdd, addNewest, evictOldest, successRate, rateParts, rateGo,
      finishedConcurrent, callFinish]
  refine ⟨?_, ?_, ?_, ?_, ?_, ?_, ?_⟩
  · rw [h1]; norm_num +decide [successRate, rateParts, rateGo]
  · rw [h2]; norm_num +decide [successRate, rateParts, rateGo]
  · rw [h3]; norm_num +decide [successRate, rateParts, rateGo]
  · rw [h4]; norm_num +decide [successRate, rateParts, rateGo]
  · rw [h5]; norm_num +decide [successRate, rateParts, rateGo]
  · rw [h5]
  · rw [h5]
    norm_num +decide [doCall, callStart, addConcurrent, check, trip,
      finishedConcurrent]

/-- C6: through either entry point, the in-flight counter returns to its
pre-call value on every exit path (rejection, success, or failure), and the
callback entry point produces exactly the same result and state as the
promise entry point. -/
theorem claim_C6_concurrent_balanced (b : Breaker) (op : Bool) (t0 t1 : Int) :
    ((doCall b op t0 t1).2).concurrent = b.concurrent ∧
      doCallbackCall b op t0 t1 = doCall b op t0 t1 := by
  have he : doCallbackCall b op t0 t1 =
      match check (addConcurrent b t0) t0 with
      | (false, b3) =>
          (DoResult.rejected ("Circuit breaker tripped: " ++ b.name),
            finishedConcurrent b3)
      | (true, b3) =>
          if op then (DoResult.succeeded, finishedConcurrent (addResult b3 1 t1))
          else (DoResult.failed, finishedConcurrent (addResult b3 (-1) t1)) := rfl
  rcases hchk : check (addConcurrent b t0) t0 with ⟨okc, b2⟩
  have hb2c : b2.concurrent = b.concurrent + 1 := by
    have hf := check_snd_concurrent (addConcurrent b t0) t0
    rw [hchk] at hf
    rw [hf, addConcurrent_concurrent]
  cases okc
  · have hcs := callStart_reject b t0 b2 hchk
    rw [doCall_of_reject b op t0 t1 _ hcs, he, hchk]
    refine ⟨?_, rfl⟩
    show b2.concurrent - 1 = b.concurrent
    omega
  · have hcs := callStart_admitted b t0 b2 hchk
    rw [doCall_of_admitted b op t0 t1 _ hcs, he, hchk]
    constructor
    · cases op
      · show (addResult b2 (-1) t1).concurrent - 1 = b.concurrent
        rw [addResult_concurrent]
        omega
      · show (addResult b2 1 t1).concurrent - 1 = b.concurrent
        rw [addResult_concurrent]
        omega
    · cases op <;> rfl

/-- C7: `clear()` replaces the history with the single run `[window]`, making
the success rate exactly 1 when the window is positive, sets the mode to
Normal, and leaves the in-flight counter, the trip timer and every
configuration field unchanged. -/
theorem claim_C7_clear_frame (b : Breaker) (hw : 0 < b.window) :
    (clear b).history = [b.window] ∧ successRate (clear b) = 1 ∧
      (clear b).mode = Mode.Normal ∧
      (clear b).concurrent = b.concurrent ∧
      (clear b).lastCheck = b.lastCheck ∧
      (clear b).name = b.name ∧
      (clear b).checkInterval = b.checkInterval ∧
      (clear b).maxConcurrent = b.maxConcurrent ∧
      (clear b).window = b.window ∧
      (clear b).tripRate = b.tripRate := by
  have hinv : HistInv (clear b).window (clear b).history := histInv_init b.window hw
  have hrate := (successRate_of_inv (clear b) hw hinv).1
  refine ⟨rfl, ?_, rfl, rfl, rfl, rfl, rfl, rfl, rfl, rfl⟩
  rw [hrate]
  show ((posSum [b.window] : Int) : ℚ) / (b.window : ℚ) = 1
  rw [posSum_cons, posSum_nil, if_neg (by omega)]
  rw [add_zero]
  exact div_self (by exact_mod_cast (by omega : b.window ≠ 0))

theorem claim_C7_witness :
    successRate
        (clear
          { name := "r", mode := Mode.Tripped, checkInterval := 60, lastCheck := 9,
            concurrent := 2, maxConcurrent := 8, history := [-4], window := 4,
            tripRate := 3 / 4 }) = 1 :=
  (claim_C7_clear_frame
      { name := "r", mode := Mode.Tripped, checkInterval := 60, lastCheck := 9,
        concurrent := 2, maxConcurrent := 8, history := [-4], window := 4,
        tripRate := 3 / 4 } (by decide)).2.1

/-- C8 counterexample: the constructor does not reject a non-positive
window — `window: 0` is accepted unchanged, and the rate computation then
produces the division `0 / 0` (denominator zero), so the claim's
"misconfiguration is rejected by input validation at construction time, so
the rate computation never divides by zero" is false on the code. -/
theorem claim_C8_counterexample :
    badWindow.window = 0 ∧ rateParts badWindow = (0, 0) := by
  constructor <;> rfl

/-- C8 amended: the constructor performs no validation; for every breaker
whose window is positive and whose history satisfies the window invariant
(every history reachable through the call wrappers does, by C1), the rate
computation's divisor equals `window` (hence is nonzero) and
`CurrentSuccessRate` lies in [0, 1]. -/
theorem claim_C8_rate_in_unit_interval (b : Breaker) (hw : 0 < b.window)
    (hinv : HistInv b.window b.history) :
    (rateParts b).2 = b.window ∧ 0 ≤ successRate b ∧ successRate b ≤ 1 := by
  obtain ⟨heq, h0, h1⟩ := successRate_of_inv b hw hinv
  refine ⟨?_, h0, h1⟩
  rw [rateParts_of_inv b hinv]

theorem claim_C8_witness :
    (rateParts
        { name := "u", mode := Mode.Normal, checkInterval := 60, lastCheck := 0,
          concurrent := 0, maxConcurrent := 8, history := [2, -1, 2], window := 5,
          tripRate := 3 / 4 }).2 = 5 :=
  (claim_C8_rate_in_unit_interval
      { name := "u", mode := Mode.Normal, checkInterval := 60, lastCheck := 0,
        concurrent := 0, maxConcurrent := 8, history := [2, -1, 2], window := 5,
        tripRate := 3 / 4 } (by decide) (by decide)).1

/-- C9 counterexample: with the probe still outstanding (mode Probation,
one call in flight), a second call is admitted — `check` admits every call
in Probation — so "any further call arriving while the probe is still
outstanding is not admitted" is false on the code. -/
theorem claim_C9_counterexample :
    probeOut.mode = Mode.Probation ∧ probeOut.concurrent = 1 ∧
      (callStart probeOut 51).1 = true ∧
      ((callStart probeOut 51).2).mode = Mode.Probation := by
  refine ⟨rfl, rfl, rfl, rfl⟩

/-- C9 amended: in Probation every call (under the concurrency ceiling) is
admitted, and the admission leaves the mode Probation, so further calls
arriving while the probe is outstanding are admitted as well; the mode leaves
Probation only when an admitted call's outcome is recorded — a success moves
it to Normal and a failure to Tripped. -/
theorem claim_C9_probation_admission (b : Breaker) (t : Int)
    (hmode : b.mode = Mode.Probation) (hc : b.concurrent + 1 ≤ b.maxConcurrent) :
    callStart b t = (true, { b with concurrent := b.concurrent + 1 }) ∧
      (∀ (s : Breaker) (u : Int), s.mode = Mode.Probation →
        (callFinish s true u).mode = Mode.Normal ∧
          (callFinish s false u).mode = Mode.Tripped) := by
  constructor
  · have hb1 : addConcurrent b t = { b with concurrent := b.concurrent + 1 } := by
      rw [addConcurrent_eq, if_neg (by omega)]
    have hm1 : (addConcurrent b t).mode = Mode.Probation := by rw [hb1]; exact hmode
    have hchk : check (addConcurrent b t) t = (true, addConcurrent b t) :=
      check_eq_of_probation _ t hm1
    rw [callStart_admitted b t _ hchk, hb1]
  · intro s u hs
    constructor
    · show (addResult s 1 u).mode = Mode.Normal
      rw [addResult_eq, if_pos ⟨by decide, hs⟩]
    · show (addResult s (-1) u).mode = Mode.Tripped
      rw [addResult_eq, if_neg (fun hand => by exact absurd hand.1 (by decide)),
        if_pos (by decide : (-1 : Int) < 0), if_pos (Or.inl hs)]
      rfl

theorem claim_C9_witness :
    callStart probeOut 60 = (true, { probeOut with concurrent := probeOut.concurrent + 1 }) :=
  (claim_C9_probation_admission probeOut 60 rfl (by decide)).1

/-- C10: an outcome recorded while the mode is Tripped never leaves Tripped —
a success changes neither the mode nor the trip time; a failure whose freshly
updated success rate is below `tripRate` calls `trip` again, overwriting the
trip time with the current time; and a failure whose updated rate is still at
or above `tripRate` takes no branch, leaving both the mode (still Tripped)
and the trip time unchanged. -/
theorem claim_C10_tripped_outcomes (b : Breaker) (t : Int)
    (hmode : b.mode = Mode.Tripped) :
    (addResult b 1 t).mode = Mode.Tripped ∧
      (addResult b 1 t).lastCheck = b.lastCheck ∧
      (successRate { b with history := histAdd b.history (-1) } < b.tripRate →
        (addResult b (-1) t).mode = Mode.Tripped ∧
          (addResult b (-1) t).lastCheck = t) ∧
      (b.tripRate ≤ successRate { b with history := histAdd b.history (-1) } →
        (addResult b (-1) t).mode = Mode.Tripped ∧
          (addResult b (-1) t).lastCheck = b.lastCheck) := by
  have hnp : ¬((1 : Int) > 0 ∧ b.mode = Mode.Probation) := by
    rintro ⟨-, hp⟩
    rw [hmode] at hp
    exact absurd hp (by decide)
  have hnp2 : ¬((-1 : Int) > 0 ∧ b.mode = Mode.Probation) := fun hand =>
    absurd hand.1 (by decide)
  refine ⟨?_, ?_, ?_, ?_⟩
  · rw [addResult_eq, if_neg hnp, if_neg (by decide : ¬(1 : Int) < 0)]
    exact hmode
  · rw [addResult_eq, if_neg hnp, if_neg (by decide : ¬(1 : Int) < 0)]
  · intro hr
    rw [addResult_eq, if_neg hnp2, if_pos (by decide : (-1 : Int) < 0),
      if_pos (Or.inr hr)]
    exact ⟨rfl, rfl⟩
  · intro hr
    have hnor : ¬(b.mode = Mode.Probation ∨
        successRate { b with history := histAdd b.history (-1) } < b.tripRate) := by
      rintro (hp | hlt)
      · rw [hmode] at hp
        exact absurd hp (by decide)
      · exact absurd hlt (not_lt.2 hr)
    rw [addResult_eq, if_neg hnp2, if_pos (by decide : (-1 : Int) < 0), if_neg hnor]
    exact ⟨hmode, rfl⟩

theorem claim_C10_witness :
    (addResult
        { name := "t", mode := Mode.Tripped, checkInterval := 60, lastCheck := 0,
          concurrent := 0, maxConcurrent := 8, history := [1, -1], window := 2,
          tripRate := 1 } (-1) 7).mode = Mode.Tripped ∧
      (addResult
        { name := "t", mode := Mode.Tripped, checkInterval := 60, lastCheck := 0,
          concurrent := 0, maxConcurrent := 8, history := [1, -1], window := 2,
          tripRate := 1 } (-1) 7).lastCheck = 7 :=
  (claim_C10_tripped_outcomes
      { name := "t", mode := Mode.Tripped, checkInterval := 60, lastCheck := 0,
        concurrent := 0, maxConcurrent := 8, history := [1, -1], window := 2,
        tripRate := 1 } 7 rfl).2.2.1
    (by simp [successRate, rateParts, rateGo, histAdd, addNewest, evictOldest])

end Profuse
